import Mathlib

/-!
Verification development for the dnevnik.ru scraping microservice.

The definitions below are a shallow embedding of the scraper found in
src/dnevnik_ru_pars/src/async_parser.py together with the HTTP router in
src/dnevnik_ru_pars/routers/dnevnik.py and, where a claim compares the two
generations of the code, the synchronous parser in
src/src/dnevnik_ru_pars/src/parser.py.  Network traffic, BeautifulSoup
parses and httpx responses are modelled as explicit environment values;
everything the Python code computes from them is embedded as executable
Lean functions.
-/

set_option maxHeartbeats 1000000
set_option maxRecDepth 100000

/-- Python exception kinds that can be raised or caught inside the scraper. -/
inductive PyExc where
  | httpStatusError
  | timeoutError
  | connectError
  | typeError
  | attributeError
  | indexError
  | keyError
  | jsonDecodeError
deriving DecidableEq, Repr

/-- Outcome of running a Python fragment: a returned value or an escaped exception. -/
inductive PyResult (α : Type) where
  | ok (a : α)
  | exc (e : PyExc)
deriving DecidableEq, Repr

/-- Outcome of one HTTP request as observed by the awaiting Python code. -/
inductive NetResult (α : Type) where
  | ok (status : Nat) (body : α)
  | timeout
  | connectError
deriving DecidableEq, Repr

/-- Python dict assignment d[k] = v: the value is replaced in place when the key
exists, otherwise the pair is appended, matching insertion-order semantics. -/
def dictSet {α : Type} : List (String × α) → String → α → List (String × α)
  | [], k, v => [(k, v)]
  | (k0, v0) :: tl, k, v => if k0 = k then (k, v) :: tl else (k0, v0) :: dictSet tl k v

/-- Python dict lookup. -/
def dictGet? {α : Type} : List (String × α) → String → Option α
  | [], _ => none
  | (k0, v0) :: tl, k => if k0 = k then some v0 else dictGet? tl k

/-- JSON values as produced by json.loads.  Numeric literals keep their lexeme
because no code in this repository ever inspects a numeric value. -/
inductive Json where
  | null
  | bool (b : Bool)
  | num (lexeme : String)
  | str (s : String)
  | arr (items : List Json)
  | obj (fields : List (String × Json))

/-- Lowercase hex digit, as produced by the percent-04x formatting in json.dumps. -/
def hexDigitCh (n : Nat) : Char := if n < 10 then Char.ofNat (48 + n) else Char.ofNat (87 + n)

/-- Four lowercase hex digits of a code unit below 0x10000. -/
def natToHex4 (n : Nat) : List Char :=
  [hexDigitCh (n / 4096 % 16), hexDigitCh (n / 256 % 16), hexDigitCh (n / 16 % 16),
    hexDigitCh (n % 16)]

/-- Escape one character exactly the way json.dumps with ensure_ascii does:
quote and backslash get a two-character escape, the five named control
characters get their short escapes, every other character outside the printable
ASCII range 0x20 to 0x7e is written as a u-escape, using a surrogate pair for
code points above 0xffff. -/
def encChar (c : Char) : List Char :=
  if c = '"' then ['\\', '"']
  else if c = '\\' then ['\\', '\\']
  else if c = '\x08' then ['\\', 'b']
  else if c = '\x0c' then ['\\', 'f']
  else if c = '\n' then ['\\', 'n']
  else if c = '\x0d' then ['\\', 'r']
  else if c = '\t' then ['\\', 't']
  else if c.toNat < 0x20 ∨ 0x7e < c.toNat then
    if c.toNat < 0x10000 then '\\' :: 'u' :: natToHex4 c.toNat
    else
      '\\' :: 'u' :: natToHex4 (0xd800 + (c.toNat - 0x10000) / 0x400)
        ++ '\\' :: 'u' :: natToHex4 (0xdc00 + (c.toNat - 0x10000) % 0x400)
  else [c]

/-- JSON string literal for s, quotes included. -/
def encStrChars (s : String) : List Char := '"' :: (s.data.map encChar).flatten ++ ['"']

/-- Scanner fuel consumed while decoding the escape of one character; used only
to budget the termination fuel in the round-trip proofs. -/
def encCost (c : Char) : Nat :=
  if c = '"' then 2
  else if c = '\\' then 2
  else if c = '\x08' then 2
  else if c = '\x0c' then 2
  else if c = '\n' then 2
  else if c = '\x0d' then 2
  else if c = '\t' then 2
  else if c.toNat < 0x20 ∨ 0x7e < c.toNat then
    if c.toNat < 0x10000 then 4 else 6
  else 1

/-- Scanner fuel consumed while decoding a whole encoded string body. -/
def strCost (s : List Char) : Nat := (s.map encCost).sum

/-- One key-value member as rendered by json.dumps with default separators. -/
def pairChars (p : String × String) : List Char :=
  encStrChars p.1 ++ ':' :: ' ' :: encStrChars p.2

/-- Members joined with the default comma-space separator. -/
def pairsChars : List (String × String) → List Char
  | [] => []
  | [p] => pairChars p
  | p :: q :: tl => pairChars p ++ ',' :: ' ' :: pairsChars (q :: tl)

/-- Separator-prefixed remainder of a serialized member list; used to expose
the head member while reasoning about the scanner. -/
def pairsTail : List (String × String) → List Char
  | [] => []
  | q :: tl => ',' :: ' ' :: pairsChars (q :: tl)

/-- Scanner fuel consumed while decoding a whole serialized member list; used
only to budget the termination fuel in the round-trip proofs. -/
def pairsCost : List (String × String) → Nat
  | [] => 0
  | p :: tl => strCost p.1.data + strCost p.2.data + 4 + pairsCost tl

/-- Character list of json.dumps applied to a flat str-to-str dict. -/
def dumpsChars (m : List (String × String)) : List Char :=
  '\x7b' :: pairsChars m ++ ['\x7d']

/-- json.dumps of a flat str-to-str dict with default settings; this is the
serialized form of the cookie jar persisted by the external user store. -/
def dumps (m : List (String × String)) : String := String.mk (dumpsChars m)

/-- Whitespace skipped by the json module between tokens. -/
def isJsonWs (c : Char) : Bool := c == ' ' || c == '\t' || c == '\n' || c == '\x0d'

/-- Drop leading JSON whitespace. -/
def skipWs (l : List Char) : List Char := l.dropWhile isJsonWs

/-- Value of one hex digit accepted inside a u-escape; both cases are allowed. -/
def hexVal? (c : Char) : Option Nat :=
  if 48 ≤ c.toNat ∧ c.toNat ≤ 57 then some (c.toNat - 48)
  else if 97 ≤ c.toNat ∧ c.toNat ≤ 102 then some (c.toNat - 87)
  else if 65 ≤ c.toNat ∧ c.toNat ≤ 70 then some (c.toNat - 55)
  else none

/-- Combine four hex digits into a code unit. -/
def dec4 (a b c d : Char) : Option Nat :=
  match hexVal? a, hexVal? b, hexVal? c, hexVal? d with
  | some x, some y, some z, some w => some (((x * 16 + y) * 16 + z) * 16 + w)
  | _, _, _, _ => none

/-- Recognize one fixed literal word such as null, true or false after its
first character, mirroring the constant lookup of the json scanner. -/
def parseLit (w : List Char) (j : Json) (r : List Char) : Option (Json × List Char) :=
  if w.isPrefixOf r then some (j, r.drop w.length) else none

/-- Single-character escapes accepted by the json decoder. -/
def simpleUnescape (c : Char) : Option Char :=
  if c = '"' then some '"'
  else if c = '\\' then some '\\'
  else if c = '/' then some '/'
  else if c = 'b' then some '\x08'
  else if c = 'f' then some '\x0c'
  else if c = 'n' then some '\n'
  else if c = 'r' then some '\x0d'
  else if c = 't' then some '\t'
  else none

/-- Scan a JSON string body after the opening quote, returning the decoded
characters and the input after the closing quote.  Follows the strict-mode
scanner of the json module: raw control characters are rejected, u-escapes in
the surrogate range are recombined into one code point.  One deviation: the
Python scanner lets an unpaired surrogate escape through as a lone surrogate
character, which a Lean Char cannot represent, so such input is rejected here;
no encoder output and no input relevant to a claim contains one. -/
def consDec (c : Char) (o : Option (List Char × List Char)) : Option (List Char × List Char) :=
  match o with
  | some (cs, r) => some (c :: cs, r)
  | none => none

mutual

/-- Main loop of the scanner: a quote ends the string, a backslash starts an
escape, raw control characters are rejected, anything else is taken verbatim.
The fuel argument exists only to force termination; loads always passes more
of it than any input can consume. -/
def decStrAux : Nat → List Char → Option (List Char × List Char)
  | 0, _ => none
  | _ + 1, [] => none
  | fuel + 1, c :: rest =>
    if c = '"' then some ([], rest)
    else if c = '\\' then decEsc fuel rest
    else if c.toNat < 0x20 then none
    else consDec c (decStrAux fuel rest)
termination_by structural fuel _ => fuel

/-- Scanner state after a backslash. -/
def decEsc : Nat → List Char → Option (List Char × List Char)
  | 0, _ => none
  | _ + 1, [] => none
  | fuel + 1, e :: rest1 =>
    if e = 'u' then decUesc fuel rest1
    else
      match simpleUnescape e with
      | none => none
      | some c2 => consDec c2 (decStrAux fuel rest1)
termination_by structural fuel _ => fuel

/-- Scanner state after a backslash-u: four hex digits must follow. -/
def decUesc : Nat → List Char → Option (List Char × List Char)
  | 0, _ => none
  | fuel + 1, h1 :: h2 :: h3 :: h4 :: rest2 =>
    match dec4 h1 h2 h3 h4 with
    | none => none
    | some n => decUval fuel n rest2
  | _ + 1, _ => none
termination_by structural fuel _ => fuel

/-- Dispatch on the decoded code unit: a value outside the surrogate range
becomes one character, a high surrogate demands a low one right behind it. -/
def decUval : Nat → Nat → List Char → Option (List Char × List Char)
  | 0, _, _ => none
  | fuel + 1, n, rest2 =>
    if n < 0xd800 ∨ 0xdfff < n then consDec (Char.ofNat n) (decStrAux fuel rest2)
    else if n < 0xdc00 then decLowSur fuel n rest2
    else none
termination_by structural fuel _ _ => fuel

/-- Scanner state expecting the low half of a surrogate pair. -/
def decLowSur : Nat → Nat → List Char → Option (List Char × List Char)
  | 0, _, _ => none
  | fuel + 1, n, e2 :: u2 :: g1 :: g2 :: g3 :: g4 :: rest3 =>
    if e2 = '\\' ∧ u2 = 'u' then
      match dec4 g1 g2 g3 g4 with
      | none => none
      | some m2 => decLowVal fuel n m2 rest3
    else none
  | _ + 1, _, _ => none
termination_by structural fuel _ _ => fuel

/-- Recombine the two surrogate halves into one code point. -/
def decLowVal : Nat → Nat → Nat → List Char → Option (List Char × List Char)
  | 0, _, _, _ => none
  | fuel + 1, n, m2, rest3 =>
    if 0xdc00 ≤ m2 ∧ m2 ≤ 0xdfff then
      consDec (Char.ofNat (0x10000 + (n - 0xd800) * 0x400 + (m2 - 0xdc00)))
        (decStrAux fuel rest3)
    else none
termination_by structural fuel _ _ _ => fuel

end

/-- ASCII digit test used by the number lexer. -/
def isDigitCh (c : Char) : Bool := 48 ≤ c.toNat && c.toNat ≤ 57

/-- Lex one JSON number and keep its lexeme, mirroring the regex of the json
module: optional minus, an integer part without leading zeros, then an optional
fraction and exponent which are simply not consumed when incomplete. -/
def parseNum (l : List Char) : Option (Json × List Char) :=
  let sl : List Char × List Char :=
    match l with
    | '-' :: r => (['-'], r)
    | _ => ([], l)
  let ids := sl.2.takeWhile isDigitCh
  let r1 := sl.2.dropWhile isDigitCh
  if ids.isEmpty then none
  else if 1 < ids.length ∧ ids.head? = some '0' then none
  else
    let fr : List Char × List Char :=
      match r1 with
      | '.' :: rr =>
        let ds2 := rr.takeWhile isDigitCh
        if ds2.isEmpty then ([], r1) else ('.' :: ds2, rr.dropWhile isDigitCh)
      | _ => ([], r1)
    let ex : List Char × List Char :=
      match fr.2 with
      | e :: rr =>
        if e == 'e' || e == 'E' then
          match rr with
          | s :: rr2 =>
            if s == '+' || s == '-' then
              let ds3 := rr2.takeWhile isDigitCh
              if ds3.isEmpty then ([], fr.2) else (e :: s :: ds3, rr2.dropWhile isDigitCh)
            else
              let ds3 := rr.takeWhile isDigitCh
              if ds3.isEmpty then ([], fr.2) else (e :: ds3, rr.dropWhile isDigitCh)
          | [] => ([], fr.2)
        else ([], fr.2)
      | [] => ([], fr.2)
    some (.num (String.mk (sl.1 ++ ids ++ fr.1 ++ ex.1)), ex.2)

mutual

/-- Parse one JSON value.  The fuel argument only serves termination and is
decremented on every recursive step; loads passes more than enough of it. -/
def parseVal : Nat → List Char → Option (Json × List Char)
  | 0, _ => none
  | _ + 1, [] => none
  | fuel + 1, ch :: r =>
    if ch = '\x7b' then parseObjRest fuel r
    else if ch = '[' then parseArrRest fuel r
    else if ch = '"' then
      match decStrAux fuel r with
      | some (cs, rest) => some (.str (String.mk cs), rest)
      | none => none
    else if ch = 'n' then parseLit ['u', 'l', 'l'] .null r
    else if ch = 't' then parseLit ['r', 'u', 'e'] (.bool true) r
    else if ch = 'f' then parseLit ['a', 'l', 's', 'e'] (.bool false) r
    else if ch = '-' ∨ isDigitCh ch then parseNum (ch :: r)
    else none

/-- Continue after an opening brace: an empty object or a member list. -/
def parseObjRest : Nat → List Char → Option (Json × List Char)
  | 0, _ => none
  | fuel + 1, l =>
    match skipWs l with
    | '\x7d' :: r => some (.obj [], r)
    | l1 => parseMembers fuel l1 []

/-- Parse the members of an object; duplicate keys follow dict semantics, the
last value winning while the key keeps its first position. -/
def parseMembers : Nat → List Char → List (String × Json) → Option (Json × List Char)
  | 0, _, _ => none
  | fuel + 1, l, acc =>
    match l with
    | '"' :: r =>
      match decStrAux fuel r with
      | none => none
      | some (kcs, r1) =>
        match skipWs r1 with
        | ':' :: r2 =>
          match parseVal fuel (skipWs r2) with
          | none => none
          | some (v, r3) =>
            match skipWs r3 with
            | ',' :: r4 => parseMembers fuel (skipWs r4) (dictSet acc (String.mk kcs) v)
            | '\x7d' :: r4 => some (.obj (dictSet acc (String.mk kcs) v), r4)
            | _ => none
        | _ => none
    | _ => none

/-- Continue after an opening bracket: an empty array or an item list. -/
def parseArrRest : Nat → List Char → Option (Json × List Char)
  | 0, _ => none
  | fuel + 1, l =>
    match skipWs l with
    | ']' :: r => some (.arr [], r)
    | l1 => parseItems fuel l1 []

/-- Parse the remaining items of an array. -/
def parseItems : Nat → List Char → List Json → Option (Json × List Char)
  | 0, _, _ => none
  | fuel + 1, l, acc =>
    match parseVal fuel l with
    | none => none
    | some (v, r1) =>
      match skipWs r1 with
      | ',' :: r2 => parseItems fuel (skipWs r2) (acc ++ [v])
      | ']' :: r2 => some (.arr (acc ++ [v]), r2)
      | _ => none

end

/-- json.loads on a whole document: optional surrounding whitespace around
exactly one value, trailing garbage rejected. -/
def loads (s : String) : Option Json :=
  match parseVal (6 * s.data.length + 8) (skipWs s.data) with
  | some (v, r) => if (skipWs r).isEmpty then some v else none
  | none => none

/-- Literal part of the regular expression the extractor searches for,
including the opening brace that follows the equals sign. -/
def stateLit : List Char := String.data ("window.__USER__START__PAGE__INITIAL__STATE__ = \x7b")

/-- Attempt the state regex at one position: the literal must match here, then
the greedy dot-star capture runs to the last closing brace on the same line. -/
def tryMatchAt (l : List Char) : Option (List Char) :=
  if stateLit.isPrefixOf l then
    let line := (l.drop stateLit.length).takeWhile (fun c => c ≠ '\n')
    match line.reverse.dropWhile (fun c => c ≠ '\x7d') with
    | '\x7d' :: tl => some tl.reverse
    | _ => none
  else none

/-- re.search for the state assignment: the earliest position where the whole
pattern matches wins, later positions are tried when one fails. -/
def reSearchState : List Char → Option (List Char)
  | [] => none
  | c :: tl =>
    match tryMatchAt (c :: tl) with
    | some g => some g
    | none => reSearchState tl

/-- One mark object of the marks API payload. -/
structure Mark where
  value : String
deriving DecidableEq, Repr

/-- One work (assignment) of a subject. -/
structure Work where
  marks : List Mark
deriving DecidableEq, Repr

/-- One subject of the marks payload.  The average field holds the value of
the average sub-object; none stands for a missing or null average, either of
which makes the subscript chain raise in Python. -/
structure Subject where
  name : String
  works : List Work
  average : Option String
deriving DecidableEq, Repr

/-- Elements of one entry of the reshaped marks dict: the grade list always
comes first and the server average is appended behind it when present. -/
inductive MarkElem where
  | grades (values : List String)
  | avg (value : String)
deriving DecidableEq, Repr

/-- The reshaped marks mapping, subject name to entry. -/
abbrev MarksDict := List (String × List MarkElem)

/-- The grade values of one subject: every mark of every work, upstream order. -/
def gradeValues (s : Subject) : List String :=
  (s.works.map (fun w => w.marks.map Mark.value)).flatten

/-- Build one entry of Parser.__process_marks: the grade list, then the
average value when the grade list is nonempty; touching a missing average
raises. -/
def processSubject (s : Subject) : PyResult (List MarkElem) :=
  if (gradeValues s).isEmpty then .ok [.grades (gradeValues s)]
  else
    match s.average with
    | some a => .ok [.grades (gradeValues s), .avg a]
    | none => .exc .keyError

/-- Loop of Parser.__process_marks over the subject list. -/
def processMarksGo : MarksDict → List Subject → PyResult MarksDict
  | acc, [] => .ok acc
  | acc, s :: tl =>
    match processSubject s with
    | .ok entry => processMarksGo (dictSet acc s.name entry) tl
    | .exc e => .exc e

/-- Parser.__process_marks of the asynchronous parser. -/
def processMarks (subjects : List Subject) : PyResult MarksDict := processMarksGo [] subjects

/-- Which upstream request a record describes. -/
inductive ReqTag where
  | loginPost
  | feedGet
  | marksGet
  | scheduleGet
  | printGet
deriving DecidableEq, Repr

/-- One issued HTTP request together with the timeout argument it was given;
none means the call carried no explicit timeout and runs on the library
default. -/
structure ReqRec where
  tag : ReqTag
  timeout : Option ℚ
deriving DecidableEq, Repr

/-- Parser.get_marks: deserialize the stored cookies, issue the marks API GET
with the configured timeout, return None on a caught HTTPStatusError after a
non-2xx status, otherwise reshape the payload.  Timeout and transport errors
are not HTTPStatusError and therefore escape.  The second component lists the
requests issued. -/
def getMarksOp (t : ℚ) (cookiesStr : String) (resp : NetResult (List Subject)) :
    PyResult (Option MarksDict) × List ReqRec :=
  match loads cookiesStr with
  | none => (.exc .jsonDecodeError, [])
  | some _ =>
    match resp with
    | .timeout => (.exc .timeoutError, [⟨.marksGet, some t⟩])
    | .connectError => (.exc .connectError, [⟨.marksGet, some t⟩])
    | .ok status subjects =>
      if 200 ≤ status ∧ status < 300 then
        match processMarks subjects with
        | .ok d => (.ok (some d), [⟨.marksGet, some t⟩])
        | .exc e => (.exc e, [⟨.marksGet, some t⟩])
      else (.ok none, [⟨.marksGet, some t⟩])

/-- The print-version anchor of the schedule page, when present; its href
attribute may itself be absent, in which case the subscript raises KeyError. -/
structure Anchor where
  href : Option String
deriving DecidableEq, Repr

/-- The schedule view page as seen through BeautifulSoup: only the anchor
whose title attribute carries the print-version label matters. -/
structure SchedulePage where
  printAnchor : Option Anchor
deriving DecidableEq, Repr

/-- Message returned by get_timetable when the print-version anchor is absent. -/
def noLessonsMsg : String := "На этой неделе у класса нет уроков"

/-- Parser.get_timetable: deserialize cookies outside the try block, fetch the
schedule view, follow the print-version link.  A missing anchor makes the
subscript on None raise TypeError, which is caught and turned into the
no-lessons message; statuses are never checked; timeout and transport errors
escape because only TypeError and HTTPStatusError are caught. -/
def getTimetableOp (t : ℚ) (cookiesStr : String) (resp1 : NetResult SchedulePage)
    (resp2 : NetResult String) : PyResult (Option String) × List ReqRec :=
  match loads cookiesStr with
  | none => (.exc .jsonDecodeError, [])
  | some _ =>
    match resp1 with
    | .timeout => (.exc .timeoutError, [⟨.scheduleGet, some t⟩])
    | .connectError => (.exc .connectError, [⟨.scheduleGet, some t⟩])
    | .ok _ page =>
      match page.printAnchor with
      | none => (.ok (some noLessonsMsg), [⟨.scheduleGet, some t⟩])
      | some a =>
        match a.href with
        | none => (.exc .keyError, [⟨.scheduleGet, some t⟩])
        | some _ =>
          match resp2 with
          | .timeout => (.exc .timeoutError, [⟨.scheduleGet, some t⟩, ⟨.printGet, some t⟩])
          | .connectError => (.exc .connectError, [⟨.scheduleGet, some t⟩, ⟨.printGet, some t⟩])
          | .ok _ body => (.ok (some body), [⟨.scheduleGet, some t⟩, ⟨.printGet, some t⟩])

/-- The feed page as seen through BeautifulSoup: the body element carrying the
page-body class, when present, reduced to the text of its script tags in
document order. -/
structure FeedPage where
  pageBody : Option (List String)
deriving DecidableEq, Repr

/-- Python subscript on a loaded JSON value: KeyError on a missing key,
TypeError when the value is not an object. -/
def jsonGetKey (j : Json) (k : String) : PyResult Json :=
  match j with
  | .obj fields =>
    match dictGet? fields k with
    | some v => .ok v
    | none => .exc .keyError
  | _ => .exc .typeError

/-- The extraction pipeline shared verbatim by both parser generations: find
the page body, take the 12th script, run the state regex on its text, re-brace
and parse the captured fragment, then read the three analytics identifiers.
Each step raises the exception the corresponding Python expression would. -/
def extractStage (page : FeedPage) : PyResult (Json × Json × Json) :=
  match page.pageBody with
  | none => .exc .attributeError
  | some scripts =>
    match scripts[11]? with
    | none => .exc .indexError
    | some scr =>
      match reSearchState scr.data with
      | none => .exc .typeError
      | some grp =>
        match loads (String.mk ('\x7b' :: grp ++ ['\x7d'])) with
        | none => .exc .jsonDecodeError
        | some j =>
          match jsonGetKey j ("analytics") with
          | .exc e => .exc e
          | .ok analytics =>
            match jsonGetKey analytics ("personId") with
            | .exc e => .exc e
            | .ok pid =>
              match jsonGetKey analytics ("schoolId") with
              | .exc e => .exc e
              | .ok sid =>
                match jsonGetKey analytics ("groupId") with
                | .exc e => .exc e
                | .ok gid => .ok (pid, sid, gid)

/-- Name of the session-seed cookie removed right after the login POST. -/
def sstCookie : String := "dnevnik_sst"

/-- httpx Cookies.delete with only a name: every cookie of that name goes,
everything else stays. -/
def cookiesDelete (jar : List (String × String)) (name : String) : List (String × String) :=
  jar.filter (fun p => p.1 != name)

/-- dict(zip(cookies.keys(), cookies.values())): the jar flattened into a
dict, later duplicates overwriting earlier ones. -/
def jarToDict (jar : List (String × String)) : List (String × String) :=
  jar.foldl (fun acc p => dictSet acc p.1 p.2) []

/-- httpx cookie extraction from a response: every Set-Cookie header of the
response stores its cookie into the client jar, replacing an existing cookie
of the same name in place and appending a new name at the end. -/
def jarUpdate (jar : List (String × String)) (newc : List (String × String)) :
    List (String × String) :=
  newc.foldl (fun acc p => dictSet acc p.1 p.2) jar

/-- The UserData fields touched by authentication; incoming values are kept
when the operation fails before returning. -/
structure SessionOut where
  person_id : Option Json
  school_id : Option Json
  group_id : Option Json
  cookies : Option String

/-- Environment of one authentication run: the outcome of the login POST, the
cookie jar it left on the client, the outcome of the feed GET, and the cookies
the feed response sets on the client jar through its Set-Cookie headers. -/
structure AuthEnv where
  loginResp : NetResult Unit
  loginCookies : List (String × String)
  feedResp : NetResult FeedPage
  feedSetCookies : List (String × String)

/-- Parser.get_cookies_person_school_group_id of the asynchronous parser.
The login POST carries no timeout argument; the feed GET carries the
configured one and only HTTPStatusError is caught around it, answering None.
The extraction stage runs outside any try block, so its exceptions escape.
The session-seed cookie is deleted right after the login POST; the jar is
snapshotted only after the feed GET, so the feed response's Set-Cookie
headers land in it first.  On success all four session fields are
overwritten and that snapshot is serialized into the cookies field. -/
def authOp (_login _password : String) (t : ℚ) (env : AuthEnv) (u0 : SessionOut) :
    PyResult (Option SessionOut) × List ReqRec :=
  match env.loginResp with
  | .timeout => (.exc .timeoutError, [⟨.loginPost, none⟩])
  | .connectError => (.exc .connectError, [⟨.loginPost, none⟩])
  | .ok _ _ =>
    let jar := cookiesDelete env.loginCookies sstCookie
    match env.feedResp with
    | .timeout => (.exc .timeoutError, [⟨.loginPost, none⟩, ⟨.feedGet, some t⟩])
    | .connectError => (.exc .connectError, [⟨.loginPost, none⟩, ⟨.feedGet, some t⟩])
    | .ok status page =>
      if 200 ≤ status ∧ status < 300 then
        match extractStage page with
        | .exc e => (.exc e, [⟨.loginPost, none⟩, ⟨.feedGet, some t⟩])
        | .ok (pid, sid, gid) =>
          (.ok (some { u0 with
              person_id := some pid
              school_id := some sid
              group_id := some gid
              cookies := some (dumps (jarToDict (jarUpdate jar env.feedSetCookies))) }),
            [⟨.loginPost, none⟩, ⟨.feedGet, some t⟩])
      else (.ok none, [⟨.loginPost, none⟩, ⟨.feedGet, some t⟩])

/-- Environment of the synchronous parser run; it never checks statuses and
never removes the session-seed cookie. -/
structure SyncEnv where
  loginCookies : List (String × String)
  feedResp : NetResult FeedPage

/-- Parser.get_cookies_person_school_group_id of the synchronous parser in
src/src/dnevnik_ru_pars/src/parser.py: the whole body runs inside a catch-all
except clause that logs and returns False, embedded here as ok none. -/
def syncAuth (env : SyncEnv) : PyResult (Option SessionOut) :=
  match env.feedResp with
  | .timeout => .ok none
  | .connectError => .ok none
  | .ok _ page =>
    match extractStage page with
    | .exc _ => .ok none
    | .ok (pid, sid, gid) =>
      .ok (some ⟨some pid, some sid, some gid, some (dumps (jarToDict env.loginCookies))⟩)

/-- What the HTTP layer sends back for one marks request. -/
inductive RouterResp where
  | jsonBody (d : MarksDict)
  | httpError (code : Nat)
  | serverError (e : PyExc)
deriving DecidableEq, Repr

/-- Router.__get_marks: HTTPException 400 whenever the parser result is falsy,
which covers both None and the empty dict; an escaped parser exception becomes
an unhandled server error instead. -/
def routerGetMarks (r : PyResult (Option MarksDict)) : RouterResp :=
  match r with
  | .exc e => .serverError e
  | .ok none => .httpError 400
  | .ok (some d) => if d.isEmpty then .httpError 400 else .jsonBody d

/-- Spec-side grade list of one subject, following the claim wording: append
the value of every mark of every work, in upstream order, nothing sorted. -/
def specGrades (s : Subject) : List String :=
  s.works.foldl (fun acc w => w.marks.foldl (fun acc2 mk => acc2 ++ [mk.value]) acc) []

/-- Spec-side entry of one subject, following the claim wording: the grade
list alone when it is empty, otherwise the grade list followed by the reported
average; none when the claim presupposes an average that the payload lacks. -/
def specEntry? (s : Subject) : Option (List MarkElem) :=
  if specGrades s = [] then some [.grades []]
  else
    match s.average with
    | some a => some [.grades (specGrades s), .avg a]
    | none => none

/-- Sample script text of a well-formed feed page, used to exercise a fully
successful authentication run. -/
def stateScriptEx : String :=
  "window.__USER__START__PAGE__INITIAL__STATE__ = \x7b\"analytics\": \x7b\"personId\": \"p1\", \"schoolId\": \"s1\", \"groupId\": \"g1\"\x7d\x7d"

/-- Feed page whose 12th script holds the state assignment. -/
def feedPageGood : FeedPage := ⟨some (List.replicate 11 ("") ++ [stateScriptEx])⟩

/-- Environment of a fully successful authentication run: login ok, one
harmless cookie, well-formed feed page, no cookie set by the feed response. -/
def authEnvGood : AuthEnv :=
  ⟨.ok 200 (), [("a", "1")], .ok 200 feedPageGood, []⟩

/-- Session value that the successful sample run produces. -/
def sessionGood : SessionOut :=
  ⟨some (.str ("p1")), some (.str ("s1")), some (.str ("g1")), some ("\x7b\"a\": \"1\"\x7d")⟩

/-- Environment of a successful authentication over the captured jar of the
specification example, the feed response setting no cookie. -/
def authEnvEx : AuthEnv :=
  ⟨.ok 200 (), [(sstCookie, ("x")), (("session"), ("y"))], .ok 200 feedPageGood, []⟩

/-- Session value that the specification-example run produces. -/
def sessionEx : SessionOut :=
  ⟨some (.str ("p1")), some (.str ("s1")), some (.str ("g1")),
    some ("\x7b\"session\": \"y\"\x7d")⟩

/-- Environment identical to the specification example except that the feed
response overwrites the captured session cookie with a fresh value. -/
def authEnvOverwrite : AuthEnv :=
  ⟨.ok 200 (), [(sstCookie, ("x")), (("session"), ("y"))], .ok 200 feedPageGood,
    [(("session"), ("z"))]⟩

/-! ### Dictionary lemmas -/

theorem dictGet?_dictSet_same {α : Type} (d : List (String × α)) (k : String) (v : α) :
    dictGet? (dictSet d k v) k = some v := by
  induction d with
  | nil => simp [dictSet, dictGet?]
  | cons p tl ih =>
    obtain ⟨k0, v0⟩ := p
    by_cases h : k0 = k
    · simp [dictSet, dictGet?, h]
    · simp [dictSet, dictGet?, h, ih]

theorem dictGet?_dictSet_other {α : Type} (d : List (String × α)) (k k2 : String) (v : α)
    (h : k2 ≠ k) : dictGet? (dictSet d k v) k2 = dictGet? d k2 := by
  have hne : ¬ k = k2 := fun hh => h hh.symm
  induction d with
  | nil => simp [dictSet, dictGet?, hne]
  | cons p tl ih =>
    obtain ⟨k0, v0⟩ := p
    by_cases h0 : k0 = k
    · subst h0
      simp [dictSet, dictGet?, hne]
    · by_cases h2 : k0 = k2
      · simp [dictSet, dictGet?, h0, h2, h]
      · simp [dictSet, dictGet?, h0, h2, ih]

theorem dictSet_fresh {α : Type} (d : List (String × α)) (k : String) (v : α)
    (h : dictGet? d k = none) : dictSet d k v = d ++ [(k, v)] := by
  induction d with
  | nil => simp [dictSet]
  | cons p tl ih =>
    obtain ⟨k0, v0⟩ := p
    by_cases h0 : k0 = k
    · simp [dictGet?, h0] at h
    · simp [dictGet?, h0] at h
      simp [dictSet, h0, ih h]

/-! ### Reshape algorithm lemmas -/

theorem foldl_push {α β : Type} (f : α → β) (l : List α) (init : List β) :
    l.foldl (fun acc x => acc ++ [f x]) init = init ++ l.map f := by
  induction l generalizing init with
  | nil => simp
  | cons x tl ih => simp [List.foldl_cons, ih]

theorem foldl_appendMap {α β : Type} (g : α → List β) (l : List α) (init : List β) :
    l.foldl (fun acc x => acc ++ g x) init = init ++ (l.map g).flatten := by
  induction l generalizing init with
  | nil => simp
  | cons x tl ih => simp [List.foldl_cons, ih]

theorem specGrades_eq (s : Subject) : specGrades s = gradeValues s := by
  unfold specGrades gradeValues
  have h : (fun (acc : List String) (w : Work) =>
      w.marks.foldl (fun acc2 mk => acc2 ++ [mk.value]) acc)
      = fun acc w => acc ++ w.marks.map Mark.value := by
    funext acc w
    exact foldl_push Mark.value w.marks acc
  rw [h, foldl_appendMap]
  simp

theorem processSubject_ok_spec (s : Subject) (e : List MarkElem)
    (h : processSubject s = .ok e) : specEntry? s = some e := by
  unfold processSubject at h
  unfold specEntry?
  rw [specGrades_eq]
  by_cases hg : (gradeValues s).isEmpty
  · rw [if_pos hg] at h
    have hge : gradeValues s = [] := List.isEmpty_iff.mp hg
    simp only [PyResult.ok.injEq] at h
    rw [if_pos hge, ← h, hge]
  · rw [if_neg hg] at h
    have hge : ¬ gradeValues s = [] := by
      intro hh
      exact hg (by simp [hh])
    rw [if_neg hge]
    cases ha : s.average with
    | none => rw [ha] at h; exact absurd h (by simp)
    | some a =>
      rw [ha] at h
      simp only [PyResult.ok.injEq] at h
      rw [← h]

theorem processMarksGo_spec (subjects : List Subject) :
    ∀ (acc d : MarksDict), processMarksGo acc subjects = .ok d →
    ∀ name, dictGet? d name =
      match subjects.reverse.find? (fun s => s.name == name) with
      | some s => specEntry? s
      | none => dictGet? acc name := by
  induction subjects with
  | nil =>
    intro acc d h name
    simp only [processMarksGo, PyResult.ok.injEq] at h
    subst h
    simp
  | cons s tl ih =>
    intro acc d h name
    simp only [processMarksGo] at h
    cases hps : processSubject s with
    | exc e => rw [hps] at h; exact absurd h (by simp)
    | ok entry =>
      rw [hps] at h
      have hstep := ih (dictSet acc s.name entry) d h name
      rw [hstep]
      have hrev : (s :: tl).reverse = tl.reverse ++ [s] := by simp
      rw [hrev, List.find?_append]
      cases hfind : tl.reverse.find? (fun s2 => s2.name == name) with
      | some s2 => rfl
      | none =>
        cases hb : (s.name == name) with
        | true =>
          have hne : s.name = name := by simpa using hb
          simp only [Option.none_or, List.find?_singleton, hb, if_true]
          rw [← hne, dictGet?_dictSet_same]
          exact (processSubject_ok_spec s entry hps).symm
        | false =>
          have hne : name ≠ s.name := by
            intro hh
            rw [hh] at hb
            simp at hb
          simp only [Option.none_or, List.find?_singleton, hb, if_false, Bool.false_eq_true]
          exact dictGet?_dictSet_other _ _ _ _ hne

/-- C1: every successful marks fetch reshapes per subject in upstream order:
the entry of a subject name is the spec-side entry of the last subject of that
name, the grade list coming first in upstream order and the reported average
appended exactly when the grade list is nonempty, so entries have one element
for zero marks and two elements otherwise, later duplicates winning. -/
theorem marks_reshape_spec (subjects : List Subject) (d : MarksDict)
    (h : processMarks subjects = .ok d) :
    (∀ name, dictGet? d name =
      (subjects.reverse.find? (fun s => s.name == name)).bind specEntry?)
    ∧ ∀ name entry, dictGet? d name = some entry →
        entry = [.grades []] ∨ ∃ g a, g ≠ [] ∧ entry = [.grades g, .avg a] := by
  have hmain : ∀ name, dictGet? d name =
      (subjects.reverse.find? (fun s => s.name == name)).bind specEntry? := by
    intro name
    have hspec := processMarksGo_spec subjects [] d h name
    rw [hspec]
    cases hfind : subjects.reverse.find? (fun s => s.name == name) with
    | some s => simp
    | none => simp [dictGet?]
  refine ⟨hmain, ?_⟩
  intro name entry hentry
  rw [hmain name] at hentry
  cases hfind : subjects.reverse.find? (fun s => s.name == name) with
  | none => rw [hfind] at hentry; exact absurd hentry (by simp)
  | some s =>
    rw [hfind] at hentry
    simp only [Option.some_bind] at hentry
    unfold specEntry? at hentry
    by_cases hg : specGrades s = []
    · rw [if_pos hg] at hentry
      left
      simpa using hentry.symm
    · rw [if_neg hg] at hentry
      cases ha : s.average with
      | none => rw [ha] at hentry; exact absurd hentry (by simp)
      | some a =>
        rw [ha] at hentry
        right
        exact ⟨specGrades s, a, hg, by simpa using hentry.symm⟩

/-- Witness for C1 at the marks-reshape example of the spec. -/
theorem marks_reshape_spec_witness :
    processMarks [⟨"Math", [⟨[⟨"5"⟩]⟩, ⟨[⟨"4"⟩]⟩], some ("4.5")⟩]
        = .ok [("Math", [.grades ["5", "4"], .avg ("4.5")])]
    ∧ dictGet? [("Math", [MarkElem.grades ["5", "4"], MarkElem.avg ("4.5")])] ("Math")
        = (([⟨"Math", [⟨[⟨"5"⟩]⟩, ⟨[⟨"4"⟩]⟩], some ("4.5")⟩] : List Subject).reverse.find?
            (fun s => s.name == "Math")).bind specEntry? :=
  ⟨by decide, (marks_reshape_spec _ _ (by decide)).1 ("Math")⟩

/-! ### Totality and failure of the reshape -/

theorem processMarksGo_total (subjects : List Subject)
    (hall : ∀ s ∈ subjects, gradeValues s ≠ [] → s.average.isSome = true) :
    ∀ acc, ∃ d, processMarksGo acc subjects = .ok d := by
  induction subjects with
  | nil => intro acc; exact ⟨acc, rfl⟩
  | cons s tl ih =>
    intro acc
    have hs := hall s (by simp)
    have htl : ∀ s2 ∈ tl, gradeValues s2 ≠ [] → s2.average.isSome = true := by
      intro s2 hmem
      exact hall s2 (by simp [hmem])
    have hok : ∃ entry, processSubject s = .ok entry := by
      unfold processSubject
      by_cases hg : (gradeValues s).isEmpty
      · rw [if_pos hg]; exact ⟨_, rfl⟩
      · rw [if_neg hg]
        have hne : gradeValues s ≠ [] := by
          intro hh
          exact hg (by simp [hh])
        obtain ⟨a, ha⟩ := Option.isSome_iff_exists.mp (hs hne)
        rw [ha]
        exact ⟨_, rfl⟩
    obtain ⟨entry, hentry⟩ := hok
    obtain ⟨d, hd⟩ := ih htl (dictSet acc s.name entry)
    exact ⟨d, by simp only [processMarksGo, hentry]; exact hd⟩

theorem processMarksGo_fails (subjects : List Subject) (s : Subject) (hmem : s ∈ subjects)
    (hg : gradeValues s ≠ []) (ha : s.average = none) :
    ∀ acc d, processMarksGo acc subjects ≠ .ok d := by
  induction subjects with
  | nil => cases hmem
  | cons s0 tl ih =>
    intro acc d
    cases hps : processSubject s0 with
    | exc e => simp [processMarksGo, hps]
    | ok entry =>
      simp only [processMarksGo, hps]
      rcases List.mem_cons.mp hmem with heq | hmem2
      · exfalso
        subst heq
        unfold processSubject at hps
        rw [if_neg (by simp [hg]), ha] at hps
        exact absurd hps (by simp)
      · exact ih hmem2 (dictSet acc s0.name entry) d

/-- C10: the average is touched only behind the nonempty-grades guard: a
payload whose zero-mark subjects all lack an average still reshapes
successfully, while one subject with marks and no average makes the whole
reshape raise. -/
theorem average_access_guarded :
    (∀ subjects : List Subject,
      (∀ s ∈ subjects, gradeValues s ≠ [] → s.average.isSome = true) →
      ∃ d, processMarks subjects = .ok d)
    ∧ ∀ (subjects : List Subject) (s : Subject), s ∈ subjects →
        gradeValues s ≠ [] → s.average = none →
        ∀ d, processMarks subjects ≠ .ok d := by
  constructor
  · intro subjects hall
    exact processMarksGo_total subjects hall []
  · intro subjects s hmem hg ha d
    exact processMarksGo_fails subjects s hmem hg ha [] d

/-- Witness for C10: a zero-mark subject without average reshapes fine, a
marked subject without average cannot. -/
theorem average_access_guarded_witness :
    (∀ s ∈ [(⟨"Art", [⟨[]⟩], none⟩ : Subject)], gradeValues s ≠ [] → s.average.isSome = true)
    ∧ (∃ d, processMarks [(⟨"Art", [⟨[]⟩], none⟩ : Subject)] = .ok d)
    ∧ ((⟨"B", [⟨[⟨"5"⟩]⟩], none⟩ : Subject) ∈ ([⟨"B", [⟨[⟨"5"⟩]⟩], none⟩] : List Subject))
    ∧ processMarks [(⟨"B", [⟨[⟨"5"⟩]⟩], none⟩ : Subject)] ≠ .ok [] :=
  ⟨by decide, average_access_guarded.1 _ (by decide), by decide,
    average_access_guarded.2 [⟨"B", [⟨[⟨"5"⟩]⟩], none⟩] ⟨"B", [⟨[⟨"5"⟩]⟩], none⟩
      (by decide) (by decide) (by decide) []⟩

/-! ### Router behaviour -/

/-- C9: the marks endpoint answers 400 exactly when the parser result is
falsy, so a successful fetch that reshaped to the empty mapping is reported
with the same 400 as a failed fetch. -/
theorem marks_endpoint_400_iff_falsy :
    (∀ r : PyResult (Option MarksDict),
      routerGetMarks r = .httpError 400 ↔ r = .ok none ∨ r = .ok (some []))
    ∧ routerGetMarks (.ok (some [])) = routerGetMarks (.ok none) := by
  constructor
  · intro r
    cases r with
    | exc e => simp [routerGetMarks]
    | ok o =>
      cases o with
      | none => simp [routerGetMarks]
      | some d =>
        cases d with
        | nil => simp [routerGetMarks]
        | cons p tl => simp [routerGetMarks]
  · rfl

/-! ### Timetable behaviour -/

/-- C4: when the schedule page carries no print-version anchor, the fetch
returns the no-lessons sentinel as a normal value, whatever the status of the
page fetch was. -/
theorem no_lessons_sentinel (t : ℚ) (cookiesStr : String) (cj : Json)
    (hcj : loads cookiesStr = some cj) (status : Nat) (page : SchedulePage)
    (hanchor : page.printAnchor = none) (resp2 : NetResult String) :
    (getTimetableOp t cookiesStr (.ok status page) resp2).1 = .ok (some noLessonsMsg) := by
  simp [getTimetableOp, hcj, hanchor]

/-- Witness for C4 with an empty cookie jar and a 200 page without anchor. -/
theorem no_lessons_sentinel_witness :
    loads ("\x7b\x7d") = some (.obj [])
    ∧ (getTimetableOp 10 ("\x7b\x7d") (.ok 200 ⟨none⟩) (.ok 200 (""))).1
        = .ok (some noLessonsMsg) :=
  ⟨rfl, no_lessons_sentinel 10 ("\x7b\x7d") (.obj []) rfl 200 ⟨none⟩ rfl (.ok 200 (""))⟩

/-! ### Cookie sanitising and authentication shape -/

theorem cookiesDelete_gone (jar : List (String × String)) (name : String) :
    dictGet? (cookiesDelete jar name) name = none := by
  simp only [cookiesDelete]
  induction jar with
  | nil => rfl
  | cons p tl ih =>
    obtain ⟨k0, v0⟩ := p
    by_cases h : k0 = name
    · subst h
      simpa [List.filter_cons] using ih
    · have hb : (k0 != name) = true := by simpa using h
      simp [List.filter_cons, hb, dictGet?, h, ih]

theorem cookiesDelete_keeps (jar : List (String × String)) (name k : String) (hk : k ≠ name) :
    dictGet? (cookiesDelete jar name) k = dictGet? jar k := by
  simp only [cookiesDelete]
  induction jar with
  | nil => rfl
  | cons p tl ih =>
    obtain ⟨k0, v0⟩ := p
    by_cases h : k0 = name
    · subst h
      have hne : ¬ k0 = k := fun hh => hk hh.symm
      simp [List.filter_cons, dictGet?, hne, ih]
    · have hb : (k0 != name) = true := by simpa using h
      by_cases h2 : k0 = k
      · subst h2
        simp [List.filter_cons, hb, dictGet?]
      · simp [List.filter_cons, hb, dictGet?, h2, ih]

theorem authOp_success_shape (login password : String) (t : ℚ) (env : AuthEnv)
    (u0 u : SessionOut) (reqs : List ReqRec)
    (h : authOp login password t env u0 = (.ok (some u), reqs)) :
    ∃ pid sid gid,
      u = { u0 with
        person_id := some pid
        school_id := some sid
        group_id := some gid
        cookies := some (dumps (jarToDict
          (jarUpdate (cookiesDelete env.loginCookies sstCookie) env.feedSetCookies))) } := by
  obtain ⟨lr, lc, fr, fsc⟩ := env
  cases lr with
  | timeout => simp [authOp] at h
  | connectError => simp [authOp] at h
  | ok st1 b =>
    cases fr with
    | timeout => simp [authOp] at h
    | connectError => simp [authOp] at h
    | ok status page =>
      by_cases hst : 200 ≤ status ∧ status < 300
      · cases hex : extractStage page with
        | exc e =>
          simp only [authOp] at h
          rw [if_pos hst, hex] at h
          simp at h
        | ok ids =>
          obtain ⟨pid, sid, gid⟩ := ids
          simp only [authOp] at h
          rw [if_pos hst, hex] at h
          simp only [Prod.mk.injEq, PyResult.ok.injEq, Option.some.injEq] at h
          exact ⟨pid, sid, gid, h.1.symm⟩
      · simp only [authOp] at h
        rw [if_neg hst] at h
        simp at h

/-- C5 counterexample: the jar is snapshotted only after the feed GET, so
when the feed response overwrites a captured cookie the returned session
cookies are not the sanitized captured set: on the specification example the
feed setting session to z yields session z, not the captured session y. -/
theorem cookie_sanitize_feed_overwrite :
    (authOp ("l") ("p") 10 authEnvOverwrite ⟨none, none, none, none⟩).1
        = .ok (some ⟨some (.str ("p1")), some (.str ("s1")), some (.str ("g1")),
            some ("\x7b\"session\": \"z\"\x7d")⟩)
    ∧ some ("\x7b\"session\": \"z\"\x7d")
        ≠ some (dumps (jarToDict (cookiesDelete authEnvOverwrite.loginCookies sstCookie))) :=
  ⟨rfl, by decide⟩

/-- C5 amended: the session-seed cookie is removed from the captured jar
immediately after the login POST, before the feed request reuses the jar,
every other captured cookie surviving the deletion unchanged; the cookies of
a successful authentication are the sanitized captured jar as further updated
by the cookies the feed response sets, so they equal exactly the serialized
sanitized captured set whenever the feed response sets none. -/
theorem cookie_sanitize_amended (jar : List (String × String)) :
    dictGet? (cookiesDelete jar sstCookie) sstCookie = none
    ∧ (∀ k, k ≠ sstCookie → dictGet? (cookiesDelete jar sstCookie) k = dictGet? jar k)
    ∧ (∀ (login password : String) (t : ℚ) (env : AuthEnv) (u0 u : SessionOut)
        (reqs : List ReqRec), env.loginCookies = jar →
        authOp login password t env u0 = (.ok (some u), reqs) →
        u.cookies = some (dumps (jarToDict
          (jarUpdate (cookiesDelete jar sstCookie) env.feedSetCookies))))
    ∧ (∀ (login password : String) (t : ℚ) (env : AuthEnv) (u0 u : SessionOut)
        (reqs : List ReqRec), env.loginCookies = jar → env.feedSetCookies = [] →
        authOp login password t env u0 = (.ok (some u), reqs) →
        u.cookies = some (dumps (jarToDict (cookiesDelete jar sstCookie)))) := by
  refine ⟨cookiesDelete_gone jar sstCookie, ?_, ?_, ?_⟩
  · intro k hk
    exact cookiesDelete_keeps jar sstCookie k hk
  · intro login password t env u0 u reqs hjar h
    obtain ⟨pid, sid, gid, hu⟩ := authOp_success_shape login password t env u0 u reqs h
    rw [hu, ← hjar]
  · intro login password t env u0 u reqs hjar hset h
    obtain ⟨pid, sid, gid, hu⟩ := authOp_success_shape login password t env u0 u reqs h
    rw [hu, ← hjar, hset]
    rfl

/-- Witness for the amended C5 at the example jar of the spec: the deletion
keeps the session cookie, and the full run over that jar with a cookie-silent
feed response returns exactly the serialized sanitized captured set. -/
theorem cookie_sanitize_amended_witness :
    ("session" ≠ sstCookie)
    ∧ dictGet? (cookiesDelete [(sstCookie, "x"), ("session", "y")] sstCookie) ("session")
        = dictGet? [(sstCookie, "x"), ("session", "y")] ("session")
    ∧ authEnvEx.loginCookies = [(sstCookie, "x"), ("session", "y")]
    ∧ sessionEx.cookies
        = some (dumps (jarToDict
            (cookiesDelete [(sstCookie, "x"), ("session", "y")] sstCookie))) :=
  ⟨by decide, (cookie_sanitize_amended [(sstCookie, "x"), ("session", "y")]).2.1 ("session")
      (by decide), rfl,
    (cookie_sanitize_amended [(sstCookie, "x"), ("session", "y")]).2.2.2 ("l") ("p") 10
      authEnvEx ⟨none, none, none, none⟩ sessionEx
      [⟨.loginPost, none⟩, ⟨.feedGet, some 10⟩] rfl rfl rfl⟩

/-- C8: a returned session value is all-or-nothing: whenever authentication
returns a value at all, its person, school, group and cookie fields are all
populated; every failure path returns None or raises instead. -/
theorem session_state_all_or_nothing (login password : String) (t : ℚ) (env : AuthEnv)
    (u0 u : SessionOut) (reqs : List ReqRec)
    (h : authOp login password t env u0 = (.ok (some u), reqs)) :
    u.person_id.isSome = true ∧ u.school_id.isSome = true
      ∧ u.group_id.isSome = true ∧ u.cookies.isSome = true := by
  obtain ⟨pid, sid, gid, hu⟩ := authOp_success_shape login password t env u0 u reqs h
  subst hu
  simp

/-- Witness for C8: a fully successful concrete authentication run. -/
theorem session_state_all_or_nothing_witness :
    authOp ("l") ("p") 10 authEnvGood ⟨none, none, none, none⟩
        = (.ok (some sessionGood), [⟨.loginPost, none⟩, ⟨.feedGet, some 10⟩])
    ∧ (sessionGood.person_id.isSome = true ∧ sessionGood.school_id.isSome = true
        ∧ sessionGood.group_id.isSome = true ∧ sessionGood.cookies.isSome = true) :=
  ⟨rfl, session_state_all_or_nothing ("l") ("p") 10 authEnvGood ⟨none, none, none, none⟩
      sessionGood [⟨.loginPost, none⟩, ⟨.feedGet, some 10⟩] rfl⟩

/-! ### Structural parse failures: the two parser generations diverge -/

/-- C2: at a feed page with fewer than twelve scripts the asynchronous parser
raises IndexError, which escapes to the caller because the extraction stage
runs outside every try block, while the synchronous parser of the earlier
generation returns its failure value for the same page. -/
theorem async_extract_raises_on_missing_scripts :
    (authOp ("l") ("p") 10 ⟨.ok 200 (), [], .ok 200 ⟨some [("x")]⟩, []⟩
        ⟨none, none, none, none⟩).1
      = .exc .indexError
    ∧ syncAuth ⟨[], .ok 200 ⟨some [("x")]⟩⟩ = .ok none :=
  ⟨rfl, rfl⟩

/-- C7: when the feed page lacks the page-body element the asynchronous
parser raises AttributeError instead of returning the failure value, although
a non-2xx feed status does return the failure value as claimed. -/
theorem async_auth_raises_on_missing_body :
    (authOp ("l") ("p") 10 ⟨.ok 200 (), [], .ok 200 ⟨none⟩, []⟩
        ⟨none, none, none, none⟩).1
      = .exc .attributeError
    ∧ (authOp ("l") ("p") 10 ⟨.ok 200 (), [], .ok 404 ⟨none⟩, []⟩
        ⟨none, none, none, none⟩).1
      = .ok none :=
  ⟨rfl, rfl⟩

/-! ### Timeout plumbing -/

/-- C3 counterexample: the login POST of the authentication flow is issued
without the caller-supplied timeout. -/
theorem login_post_ignores_caller_timeout :
    ¬ ∀ r ∈ (authOp ("l") ("p") 10 ⟨.timeout, [], .timeout, []⟩
        ⟨none, none, none, none⟩).2,
        r.timeout = some (10 : ℚ) := by
  decide

theorem getMarksOp_reqs (t : ℚ) (cs : String) (resp : NetResult (List Subject)) :
    (getMarksOp t cs resp).2 = [] ∨ (getMarksOp t cs resp).2 = [⟨.marksGet, some t⟩] := by
  cases hl : loads cs with
  | none => simp [getMarksOp, hl]
  | some j =>
    cases resp with
    | timeout => simp [getMarksOp, hl]
    | connectError => simp [getMarksOp, hl]
    | ok status subjects =>
      by_cases hst : 200 ≤ status ∧ status < 300
      · cases hpm : processMarks subjects with
        | ok d =>
          simp only [getMarksOp, hl]
          rw [if_pos hst]
          simp [hpm]
        | exc e =>
          simp only [getMarksOp, hl]
          rw [if_pos hst]
          simp [hpm]
      · simp only [getMarksOp, hl]
        rw [if_neg hst]
        simp

theorem getTimetableOp_reqs (t : ℚ) (cs : String) (r1 : NetResult SchedulePage)
    (r2 : NetResult String) :
    (getTimetableOp t cs r1 r2).2 = []
    ∨ (getTimetableOp t cs r1 r2).2 = [⟨.scheduleGet, some t⟩]
    ∨ (getTimetableOp t cs r1 r2).2 = [⟨.scheduleGet, some t⟩, ⟨.printGet, some t⟩] := by
  cases hl : loads cs with
  | none => simp [getTimetableOp, hl]
  | some j =>
    cases r1 with
    | timeout => simp [getTimetableOp, hl]
    | connectError => simp [getTimetableOp, hl]
    | ok status page =>
      obtain ⟨pa⟩ := page
      cases pa with
      | none => simp [getTimetableOp, hl]
      | some a =>
        obtain ⟨hf⟩ := a
        cases hf with
        | none => simp [getTimetableOp, hl]
        | some u2 =>
          cases r2 <;> simp [getTimetableOp, hl]

theorem authOp_reqs (login password : String) (t : ℚ) (env : AuthEnv) (u0 : SessionOut) :
    (authOp login password t env u0).2 = [⟨.loginPost, none⟩]
    ∨ (authOp login password t env u0).2 = [⟨.loginPost, none⟩, ⟨.feedGet, some t⟩] := by
  obtain ⟨lr, lc, fr, fsc⟩ := env
  cases lr with
  | timeout => simp [authOp]
  | connectError => simp [authOp]
  | ok st1 b =>
    cases fr with
    | timeout => simp [authOp]
    | connectError => simp [authOp]
    | ok status page =>
      by_cases hst : 200 ≤ status ∧ status < 300
      · cases hex : extractStage page with
        | exc e =>
          simp only [authOp]
          rw [if_pos hst, hex]
          simp
        | ok ids =>
          obtain ⟨pid, sid, gid⟩ := ids
          simp only [authOp]
          rw [if_pos hst, hex]
          simp
      · simp only [authOp]
        rw [if_neg hst]
        simp

/-- C3 amended: the marks and timetable fetches pass the caller timeout to
every request they issue and the feed GET of authentication does as well, but
the login POST carries no timeout argument; and whenever any of the issued
requests does time out, the operation does not produce the None failure
value: the timeout exception escapes, so no partial marks, timetable or
session value is returned either — covering the marks GET, the schedule GET,
the print-version GET once its link was found, the login POST and the feed
GET once the login succeeded. -/
theorem timeout_contract_amended :
    (∀ (t : ℚ) (cs : String) (resp : NetResult (List Subject)),
      ∀ r ∈ (getMarksOp t cs resp).2, r.timeout = some t)
    ∧ (∀ (t : ℚ) (cs : String) (r1 : NetResult SchedulePage) (r2 : NetResult String),
      ∀ r ∈ (getTimetableOp t cs r1 r2).2, r.timeout = some t)
    ∧ (∀ (login password : String) (t : ℚ) (env : AuthEnv) (u0 : SessionOut),
      ∀ r ∈ (authOp login password t env u0).2,
        (r.tag = .loginPost → r.timeout = none) ∧ (r.tag ≠ .loginPost → r.timeout = some t))
    ∧ (∀ (t : ℚ) (cs : String), (loads cs).isSome = true →
        (getMarksOp t cs .timeout).1 = .exc .timeoutError)
    ∧ (∀ (t : ℚ) (cs : String) (r2 : NetResult String), (loads cs).isSome = true →
        (getTimetableOp t cs .timeout r2).1 = .exc .timeoutError)
    ∧ (∀ (login password : String) (t : ℚ) (env : AuthEnv) (u0 : SessionOut),
        env.loginResp = .timeout →
        (authOp login password t env u0).1 = .exc .timeoutError)
    ∧ (∀ (login password : String) (t : ℚ) (env : AuthEnv) (u0 : SessionOut) (st : Nat),
        env.loginResp = .ok st () → env.feedResp = .timeout →
        (authOp login password t env u0).1 = .exc .timeoutError)
    ∧ (∀ (t : ℚ) (cs : String) (st : Nat) (page : SchedulePage) (a : Anchor) (u : String),
        (loads cs).isSome = true → page.printAnchor = some a → a.href = some u →
        (getTimetableOp t cs (.ok st page) .timeout).1 = .exc .timeoutError) := by
  refine ⟨?_, ?_, ?_, ?_, ?_, ?_, ?_, ?_⟩
  · intro t cs resp r hr
    rcases getMarksOp_reqs t cs resp with h2 | h2 <;> rw [h2] at hr
    · simp at hr
    · simp at hr
      subst hr
      rfl
  · intro t cs r1 r2 r hr
    rcases getTimetableOp_reqs t cs r1 r2 with h2 | h2 | h2 <;> rw [h2] at hr
    · simp at hr
    · simp at hr
      subst hr
      rfl
    · simp at hr
      rcases hr with hr | hr <;> subst hr <;> rfl
  · intro login password t env u0 r hr
    rcases authOp_reqs login password t env u0 with h2 | h2 <;> rw [h2] at hr
    · simp at hr
      subst hr
      exact ⟨fun _ => rfl, fun hne => absurd rfl hne⟩
    · simp at hr
      rcases hr with hr | hr <;> subst hr
      · exact ⟨fun _ => rfl, fun hne => absurd rfl hne⟩
      · refine ⟨fun htag => ?_, fun _ => rfl⟩
        exact absurd htag (by simp)
  · intro t cs h
    obtain ⟨j, hj⟩ := Option.isSome_iff_exists.mp h
    simp [getMarksOp, hj]
  · intro t cs r2 h
    obtain ⟨j, hj⟩ := Option.isSome_iff_exists.mp h
    simp [getTimetableOp, hj]
  · intro login password t env u0 heq
    obtain ⟨lr, lc, fr, fsc⟩ := env
    simp only at heq
    subst heq
    simp [authOp]
  · intro login password t env u0 st hlogin hfeed
    obtain ⟨lr, lc, fr, fsc⟩ := env
    simp only at hlogin hfeed
    subst hlogin
    subst hfeed
    simp [authOp]
  · intro t cs st page a u hcs hpa hhref
    obtain ⟨j, hj⟩ := Option.isSome_iff_exists.mp hcs
    obtain ⟨pa⟩ := page
    simp only at hpa
    subst hpa
    obtain ⟨hf⟩ := a
    simp only at hhref
    subst hhref
    simp [getTimetableOp, hj]

/-- Witness for the amended C3 statement, exercising the marks request record,
the marks GET timeout, the feed GET timeout after a successful login and the
print-version GET timeout after a found link. -/
theorem timeout_contract_amended_witness :
    ((loads ("\x7b\x7d")).isSome = true)
    ∧ ((⟨.marksGet, some 10⟩ : ReqRec) ∈ (getMarksOp 10 ("\x7b\x7d") (.ok 200 [])).2)
    ∧ ((⟨.marksGet, some 10⟩ : ReqRec).timeout = some (10 : ℚ))
    ∧ (getMarksOp 10 ("\x7b\x7d") .timeout).1 = .exc .timeoutError
    ∧ (authOp ("l") ("p") 10 ⟨.ok 200 (), [], .timeout, []⟩
        ⟨none, none, none, none⟩).1 = .exc .timeoutError
    ∧ (getTimetableOp 10 ("\x7b\x7d") (.ok 200 ⟨some ⟨some ("u")⟩⟩) .timeout).1
        = .exc .timeoutError :=
  ⟨rfl, by decide,
    timeout_contract_amended.1 10 ("\x7b\x7d") (.ok 200 []) ⟨.marksGet, some 10⟩ (by decide),
    timeout_contract_amended.2.2.2.1 10 ("\x7b\x7d") rfl,
    timeout_contract_amended.2.2.2.2.2.2.1 ("l") ("p") 10 ⟨.ok 200 (), [], .timeout, []⟩
      ⟨none, none, none, none⟩ 200 rfl rfl,
    timeout_contract_amended.2.2.2.2.2.2.2 10 ("\x7b\x7d") 200 ⟨some ⟨some ("u")⟩⟩
      ⟨some ("u")⟩ ("u") rfl rfl rfl⟩

/-! ### String codec round trip -/

theorem charToNatValid (c : Char) :
    c.toNat < 0xd800 ∨ (0xdfff < c.toNat ∧ c.toNat < 0x110000) := by
  rcases c.valid with h | ⟨h1, h2⟩
  · left
    exact h
  · right
    exact ⟨h1, h2⟩

theorem hexVal?_hexDigitCh : ∀ n < 16, hexVal? (hexDigitCh n) = some n := by decide

theorem dec4_natToHex4 (n : Nat) (h : n < 65536) :
    dec4 (hexDigitCh (n / 4096 % 16)) (hexDigitCh (n / 256 % 16))
      (hexDigitCh (n / 16 % 16)) (hexDigitCh (n % 16)) = some n := by
  unfold dec4
  rw [hexVal?_hexDigitCh _ (by omega), hexVal?_hexDigitCh _ (by omega),
    hexVal?_hexDigitCh _ (by omega), hexVal?_hexDigitCh _ (by omega)]
  exact congrArg some (by omega)

theorem skipWs_cons (c : Char) (l : List Char) (h : isJsonWs c = false) :
    skipWs (c :: l) = c :: l := by
  simp [skipWs, List.dropWhile_cons, h]

theorem skipWs_space (l : List Char) : skipWs (' ' :: l) = skipWs l := by
  simp [skipWs, List.dropWhile_cons, isJsonWs]

theorem decStrAux_quote (fuel : Nat) (rest : List Char) :
    decStrAux (fuel + 1) ('"' :: rest) = some ([], rest) := by
  rw [decStrAux, if_pos rfl]

theorem decStrAux_bslash (fuel : Nat) (rest : List Char) :
    decStrAux (fuel + 1) ('\\' :: rest) = decEsc fuel rest := by
  rw [decStrAux, if_neg (by decide), if_pos rfl]

theorem decStrAux_plain (fuel : Nat) (c : Char) (rest : List Char) (h1 : ¬ c = '"')
    (h2 : ¬ c = '\\') (h3 : ¬ c.toNat < 0x20) :
    decStrAux (fuel + 1) (c :: rest) = consDec c (decStrAux fuel rest) := by
  rw [decStrAux, if_neg h1, if_neg h2, if_neg h3]

theorem decEsc_simple (fuel : Nat) (e c2 : Char) (rest : List Char) (he : ¬ e = 'u')
    (hs : simpleUnescape e = some c2) :
    decEsc (fuel + 1) (e :: rest) = consDec c2 (decStrAux fuel rest) := by
  rw [decEsc, if_neg he, hs]

theorem decEsc_u (fuel : Nat) (rest : List Char) :
    decEsc (fuel + 1) ('u' :: rest) = decUesc fuel rest := by
  rw [decEsc, if_pos rfl]

theorem decUesc_dec4 (fuel : Nat) (h1 h2 h3 h4 : Char) (n : Nat) (rest2 : List Char)
    (hd : dec4 h1 h2 h3 h4 = some n) :
    decUesc (fuel + 1) (h1 :: h2 :: h3 :: h4 :: rest2) = decUval fuel n rest2 := by
  rw [decUesc, hd]

theorem decLowSur_pair (fuel : Nat) (g1 g2 g3 g4 : Char) (n m2 : Nat) (rest3 : List Char)
    (hg : dec4 g1 g2 g3 g4 = some m2) :
    decLowSur (fuel + 1) n ('\\' :: 'u' :: g1 :: g2 :: g3 :: g4 :: rest3)
      = decLowVal fuel n m2 rest3 := by
  rw [decLowSur, if_pos ⟨rfl, rfl⟩, hg]

theorem decStrAux_encChar (fuel : Nat) (c : Char) (rest : List Char) :
    decStrAux (fuel + encCost c) (encChar c ++ rest) = consDec c (decStrAux fuel rest) := by
  by_cases h1 : c = '"'
  · subst h1
    rw [show encChar '"' = ['\\', '"'] from rfl, show encCost '"' = 2 from rfl]
    simp only [List.cons_append, List.nil_append]
    rw [decStrAux_bslash, decEsc_simple fuel '"' '"' rest (by decide) rfl]
  · by_cases h2 : c = '\\'
    · subst h2
      rw [show encChar '\\' = ['\\', '\\'] from rfl, show encCost '\\' = 2 from rfl]
      simp only [List.cons_append, List.nil_append]
      rw [decStrAux_bslash, decEsc_simple fuel '\\' '\\' rest (by decide) rfl]
    · by_cases h3 : c = '\x08'
      · subst h3
        rw [show encChar '\x08' = ['\\', 'b'] from rfl, show encCost '\x08' = 2 from rfl]
        simp only [List.cons_append, List.nil_append]
        rw [decStrAux_bslash, decEsc_simple fuel 'b' '\x08' rest (by decide) rfl]
      · by_cases h4 : c = '\x0c'
        · subst h4
          rw [show encChar '\x0c' = ['\\', 'f'] from rfl,
            show encCost '\x0c' = 2 from rfl]
          simp only [List.cons_append, List.nil_append]
          rw [decStrAux_bslash, decEsc_simple fuel 'f' '\x0c' rest (by decide) rfl]
        · by_cases h5 : c = '\n'
          · subst h5
            rw [show encChar '\n' = ['\\', 'n'] from rfl, show encCost '\n' = 2 from rfl]
            simp only [List.cons_append, List.nil_append]
            rw [decStrAux_bslash, decEsc_simple fuel 'n' '\n' rest (by decide) rfl]
          · by_cases h6 : c = '\x0d'
            · subst h6
              rw [show encChar '\x0d' = ['\\', 'r'] from rfl,
                show encCost '\x0d' = 2 from rfl]
              simp only [List.cons_append, List.nil_append]
              rw [decStrAux_bslash, decEsc_simple fuel 'r' '\x0d' rest (by decide) rfl]
            · by_cases h7 : c = '\t'
              · subst h7
                rw [show encChar '\t' = ['\\', 't'] from rfl,
                  show encCost '\t' = 2 from rfl]
                simp only [List.cons_append, List.nil_append]
                rw [decStrAux_bslash, decEsc_simple fuel 't' '\t' rest (by decide) rfl]
              · by_cases h8 : c.toNat < 0x20 ∨ 0x7e < c.toNat
                · have hval := charToNatValid c
                  by_cases h9 : c.toNat < 0x10000
                  · have henc : encChar c = '\\' :: 'u' :: natToHex4 c.toNat := by
                      rw [encChar, if_neg h1, if_neg h2, if_neg h3, if_neg h4, if_neg h5,
                        if_neg h6, if_neg h7, if_pos h8, if_pos h9]
                    have hcost : encCost c = 4 := by
                      rw [encCost, if_neg h1, if_neg h2, if_neg h3, if_neg h4, if_neg h5,
                        if_neg h6, if_neg h7, if_pos h8, if_pos h9]
                    rw [henc, hcost]
                    simp only [natToHex4, List.cons_append, List.nil_append]
                    have hin : c.toNat < 0xd800 ∨ 0xdfff < c.toNat := by
                      rcases hval with h | ha
                      · exact Or.inl h
                      · exact Or.inr ha.1
                    rw [decStrAux_bslash, decEsc_u,
                      decUesc_dec4 _ _ _ _ _ _ _ (dec4_natToHex4 c.toNat h9), decUval,
                      if_pos hin, Char.ofNat_toNat]
                  · have hup : c.toNat < 0x110000 := by
                      rcases hval with h | ha
                      · omega
                      · exact ha.2
                    have henc : encChar c =
                        '\\' :: 'u' :: natToHex4 (0xd800 + (c.toNat - 0x10000) / 0x400)
                          ++ '\\' :: 'u'
                            :: natToHex4 (0xdc00 + (c.toNat - 0x10000) % 0x400) := by
                      rw [encChar, if_neg h1, if_neg h2, if_neg h3, if_neg h4, if_neg h5,
                        if_neg h6, if_neg h7, if_pos h8, if_neg h9]
                    have hcost : encCost c = 6 := by
                      rw [encCost, if_neg h1, if_neg h2, if_neg h3, if_neg h4, if_neg h5,
                        if_neg h6, if_neg h7, if_pos h8, if_neg h9]
                    rw [henc, hcost]
                    simp only [natToHex4, List.cons_append, List.nil_append,
                      List.append_assoc]
                    rw [decStrAux_bslash, decEsc_u,
                      decUesc_dec4 _ _ _ _ _ _ _ (dec4_natToHex4 _ (by omega)), decUval,
                      if_neg (by omega), if_pos (by omega),
                      decLowSur_pair _ _ _ _ _ _ _ _ (dec4_natToHex4 _ (by omega)),
                      decLowVal, if_pos (by constructor <;> omega)]
                    rw [show 0x10000
                          + (0xd800 + (c.toNat - 0x10000) / 0x400 - 0xd800) * 0x400
                          + (0xdc00 + (c.toNat - 0x10000) % 0x400 - 0xdc00) = c.toNat by
                        omega,
                      Char.ofNat_toNat]
                · have h3n : ¬ c.toNat < 0x20 := fun hh => h8 (Or.inl hh)
                  have henc : encChar c = [c] := by
                    rw [encChar, if_neg h1, if_neg h2, if_neg h3, if_neg h4, if_neg h5,
                      if_neg h6, if_neg h7, if_neg h8]
                  have hcost : encCost c = 1 := by
                    rw [encCost, if_neg h1, if_neg h2, if_neg h3, if_neg h4, if_neg h5,
                      if_neg h6, if_neg h7, if_neg h8]
                  rw [henc, hcost, List.singleton_append,
                    decStrAux_plain fuel c rest h1 h2 h3n]

theorem decStrAux_encStr (f : Nat) (s : List Char) (rest : List Char) :
    decStrAux (f + 1 + strCost s) ((s.map encChar).flatten ++ '"' :: rest) = some (s, rest) := by
  induction s with
  | nil =>
    simp only [strCost, List.map_nil, List.sum_nil, List.flatten_nil, List.nil_append,
      Nat.add_zero]
    exact decStrAux_quote f rest
  | cons c tl ih =>
    have hsc : strCost (c :: tl) = encCost c + strCost tl := by simp [strCost]
    have hfl : ((c :: tl).map encChar).flatten = encChar c ++ (tl.map encChar).flatten := by
      simp
    rw [hfl, hsc, List.append_assoc,
      show f + 1 + (encCost c + strCost tl) = f + 1 + strCost tl + encCost c from by omega,
      decStrAux_encChar (f + 1 + strCost tl) c ((tl.map encChar).flatten ++ '"' :: rest), ih]
    rfl

theorem decStrAux_encStr_le (f : Nat) (s rest : List Char) (h : strCost s + 1 ≤ f) :
    decStrAux f ((s.map encChar).flatten ++ '"' :: rest) = some (s, rest) := by
  obtain ⟨g, rfl⟩ : ∃ g, f = g + 1 + strCost s := ⟨f - 1 - strCost s, by omega⟩
  exact decStrAux_encStr g s rest

theorem parseVal_str (f : Nat) (s : String) (rest : List Char)
    (h : strCost s.data + 2 ≤ f) :
    parseVal f (encStrChars s ++ rest) = some (.str s, rest) := by
  obtain ⟨g, rfl⟩ : ∃ g, f = g + 1 := ⟨f - 1, by omega⟩
  have hshape : encStrChars s ++ rest
      = '"' :: ((s.data.map encChar).flatten ++ '"' :: rest) := by
    simp [encStrChars]
  rw [hshape, parseVal, if_neg (by decide), if_neg (by decide), if_pos rfl,
    decStrAux_encStr_le g s.data rest (by omega)]

theorem dictGet?_append_ne {α : Type} (acc : List (String × α)) (k1 : String) (v : α)
    (k : String) (h : dictGet? acc k = none) (hne : k1 ≠ k) :
    dictGet? (acc ++ [(k1, v)]) k = none := by
  induction acc with
  | nil =>
    simp only [List.nil_append, dictGet?, if_neg hne]
  | cons p tl ih =>
    obtain ⟨k0, v0⟩ := p
    rw [dictGet?] at h
    by_cases hk : k0 = k
    · rw [if_pos hk] at h
      exact absurd h (by simp)
    · rw [if_neg hk] at h
      rw [List.cons_append, dictGet?, if_neg hk]
      exact ih h

theorem skipWs_encStr (s : String) (x : List Char) :
    skipWs (encStrChars s ++ x) = encStrChars s ++ x := by
  have hshape : encStrChars s ++ x
      = '"' :: (((s.data.map encChar).flatten ++ ['"']) ++ x) := by
    simp [encStrChars]
  rw [hshape, skipWs_cons _ _ (by decide)]

theorem pairsChars_eq (p : String × String) (tl : List (String × String)) :
    pairsChars (p :: tl) = pairChars p ++ pairsTail tl := by
  cases tl <;> simp [pairsChars, pairsTail]

theorem skipWs_pairs (q : String × String) (tl2 : List (String × String)) (x : List Char) :
    skipWs (pairsChars (q :: tl2) ++ x) = pairsChars (q :: tl2) ++ x := by
  rw [pairsChars_eq]
  have hshape : pairChars q ++ pairsTail tl2 ++ x
      = '"' :: ((q.1.data.map encChar).flatten
          ++ '"' :: ':' :: ' ' :: (encStrChars q.2 ++ (pairsTail tl2 ++ x))) := by
    simp [pairChars, encStrChars]
  rw [hshape, skipWs_cons _ _ (by decide)]

theorem parseMembers_one_last (f : Nat) (k v : String) (tail1 r4 : List Char)
    (acc : List (String × Json))
    (hk : strCost k.data + 1 ≤ f) (hv : strCost v.data + 2 ≤ f)
    (hws : skipWs tail1 = '\x7d' :: r4) :
    parseMembers (f + 1) (pairChars (k, v) ++ tail1) acc
      = some (.obj (dictSet acc k (.str v)), r4) := by
  have hshape : pairChars (k, v) ++ tail1
      = '"' :: ((k.data.map encChar).flatten
          ++ '"' :: ':' :: ' ' :: (encStrChars v ++ tail1)) := by
    simp [pairChars, encStrChars]
  simp only [hshape, parseMembers,
    decStrAux_encStr_le f k.data (':' :: ' ' :: (encStrChars v ++ tail1)) (by omega),
    skipWs_cons ':' (' ' :: (encStrChars v ++ tail1)) (by decide),
    skipWs_space, skipWs_encStr, parseVal_str f v tail1 (by omega), hws]

theorem parseMembers_one_more (f : Nat) (k v : String) (tail1 r4 : List Char)
    (acc : List (String × Json))
    (hk : strCost k.data + 1 ≤ f) (hv : strCost v.data + 2 ≤ f)
    (hws : skipWs tail1 = ',' :: r4) :
    parseMembers (f + 1) (pairChars (k, v) ++ tail1) acc
      = parseMembers f (skipWs r4) (dictSet acc k (.str v)) := by
  have hshape : pairChars (k, v) ++ tail1
      = '"' :: ((k.data.map encChar).flatten
          ++ '"' :: ':' :: ' ' :: (encStrChars v ++ tail1)) := by
    simp [pairChars, encStrChars]
  simp only [hshape, parseMembers,
    decStrAux_encStr_le f k.data (':' :: ' ' :: (encStrChars v ++ tail1)) (by omega),
    skipWs_cons ':' (' ' :: (encStrChars v ++ tail1)) (by decide),
    skipWs_space, skipWs_encStr, parseVal_str f v tail1 (by omega), hws]

theorem parseMembers_dumps (m : List (String × String)) :
    ∀ (g : Nat) (acc : List (String × Json)), m ≠ [] →
    m.length + pairsCost m + 1 ≤ g →
    (∀ p ∈ m, dictGet? acc p.1 = none) →
    (m.map Prod.fst).Nodup →
    parseMembers g (pairsChars m ++ ['\x7d']) acc
      = some (.obj (acc ++ m.map (fun p => (p.1, Json.str p.2))), []) := by
  induction m with
  | nil =>
    intro g acc hne _ _ _
    exact absurd rfl hne
  | cons p tl ih =>
    intro g acc _ hfuel hfresh hnodup
    obtain ⟨k, v⟩ := p
    have hcost : pairsCost ((k, v) :: tl)
        = strCost k.data + strCost v.data + 4 + pairsCost tl := rfl
    have hlen : ((k, v) :: tl).length = tl.length + 1 := rfl
    rw [hcost, hlen] at hfuel
    obtain ⟨f, rfl⟩ : ∃ f, g = f + 1 := ⟨g - 1, by omega⟩
    rw [pairsChars_eq, List.append_assoc]
    cases tl with
    | nil =>
      rw [parseMembers_one_last f k v (pairsTail [] ++ ['\x7d']) [] acc
          (by omega) (by omega) rfl,
        dictSet_fresh acc k (.str v) (hfresh (k, v) (by simp))]
      simp
    | cons q tl2 =>
      have hws : skipWs (pairsTail (q :: tl2) ++ ['\x7d'])
          = ',' :: (' ' :: (pairsChars (q :: tl2) ++ ['\x7d'])) := by
        rw [show pairsTail (q :: tl2) ++ ['\x7d']
            = ',' :: (' ' :: (pairsChars (q :: tl2) ++ ['\x7d'])) from by simp [pairsTail]]
        exact skipWs_cons _ _ (by decide)
      rw [parseMembers_one_more f k v (pairsTail (q :: tl2) ++ ['\x7d'])
          (' ' :: (pairsChars (q :: tl2) ++ ['\x7d'])) acc (by omega) (by omega) hws,
        skipWs_space, skipWs_pairs q tl2 ['\x7d'],
        dictSet_fresh acc k (.str v) (hfresh (k, v) (by simp))]
      have hsplit : k ∉ (q :: tl2).map Prod.fst ∧ ((q :: tl2).map Prod.fst).Nodup := by
        rw [List.map_cons, List.nodup_cons] at hnodup
        exact hnodup
      have hnodup2 : ((q :: tl2).map Prod.fst).Nodup := hsplit.2
      have hfresh2 : ∀ r ∈ q :: tl2, dictGet? (acc ++ [(k, Json.str v)]) r.1 = none := by
        intro r hr
        have h1 : dictGet? acc r.1 = none := hfresh r (List.mem_cons_of_mem _ hr)
        have h2 : k ≠ r.1 := by
          intro hEq
          exact hsplit.1 (hEq ▸ List.mem_map_of_mem Prod.fst hr)
        exact dictGet?_append_ne acc k (Json.str v) r.1 h1 h2
      rw [ih f (acc ++ [(k, Json.str v)]) (by simp) (by
          have : ((q :: tl2).length : Nat) = tl2.length + 1 := rfl
          omega) hfresh2 hnodup2]
      simp

theorem parseObjRest_members (g : Nat) (p : String × String) (tl : List (String × String)) :
    parseObjRest (g + 1) (pairsChars (p :: tl) ++ ['\x7d'])
      = parseMembers g (pairsChars (p :: tl) ++ ['\x7d']) [] := by
  rw [parseObjRest, skipWs_pairs]
  obtain ⟨k, v⟩ := p
  have hshape : pairsChars ((k, v) :: tl) ++ ['\x7d']
      = '"' :: ((k.data.map encChar).flatten
          ++ '"' :: ':' :: ' ' :: (encStrChars v ++ (pairsTail tl ++ ['\x7d']))) := by
    rw [pairsChars_eq]
    simp [pairChars, encStrChars]
  rw [hshape]
  rfl

theorem encCost_le_len (c : Char) : encCost c ≤ 6 * (encChar c).length := by
  unfold encCost encChar
  split_ifs <;> simp [natToHex4]

theorem strCost_le (s : List Char) : strCost s ≤ 6 * ((s.map encChar).flatten).length := by
  induction s with
  | nil => simp [strCost]
  | cons c tl ih =>
    have h1 := encCost_le_len c
    have h2 : strCost (c :: tl) = encCost c + strCost tl := by simp [strCost]
    simp only [List.map_cons, List.flatten_cons, List.length_append]
    omega

theorem pairChars_len (k v : String) :
    (pairChars (k, v)).length
      = (k.data.map encChar).flatten.length + (v.data.map encChar).flatten.length + 6 := by
  simp [pairChars, encStrChars]
  omega

theorem pairs_fuel_bound (m : List (String × String)) :
    m.length + pairsCost m + 1 ≤ 6 * (pairsChars m).length + 18 := by
  induction m with
  | nil => simp [pairsCost, pairsChars]
  | cons p tl ih =>
    obtain ⟨k, v⟩ := p
    have hk := strCost_le k.data
    have hv := strCost_le v.data
    have hpl := pairChars_len k v
    cases tl with
    | nil =>
      have hx : pairsChars [(k, v)] = pairChars (k, v) := rfl
      have hc : pairsCost [(k, v)] = strCost k.data + strCost v.data + 4 + 0 := rfl
      rw [hx, hc]
      simp only [List.length_cons, List.length_nil]
      omega
    | cons q tl2 =>
      have hx : pairsChars ((k, v) :: q :: tl2)
          = pairChars (k, v) ++ ',' :: ' ' :: pairsChars (q :: tl2) := rfl
      have hc : pairsCost ((k, v) :: q :: tl2)
          = strCost k.data + strCost v.data + 4 + pairsCost (q :: tl2) := rfl
      have hl : ((k, v) :: q :: tl2).length = (q :: tl2).length + 1 := rfl
      rw [hx, hc, hl]
      simp only [List.length_append, List.length_cons]
      simp only [List.length_cons] at ih
      omega

/-- C6: cookie serialization round-trips: for every cookie mapping, a list of
string pairs with pairwise distinct names, json.loads applied to json.dumps of
the mapping yields exactly the JSON object whose fields are the original names
bound to their original values, in the original order. -/
theorem cookie_roundtrip (m : List (String × String))
    (hnd : (m.map Prod.fst).Nodup) :
    loads (dumps m) = some (.obj (m.map (fun p => (p.1, Json.str p.2)))) := by
  cases m with
  | nil => rfl
  | cons p tl =>
    have hdata : (dumps (p :: tl)).data = '\x7b' :: (pairsChars (p :: tl) ++ ['\x7d']) := rfl
    have hbound := pairs_fuel_bound (p :: tl)
    rw [loads, hdata, skipWs_cons _ _ (by decide),
      show ('\x7b' :: (pairsChars (p :: tl) ++ ['\x7d'])).length
        = (pairsChars (p :: tl)).length + 2 from by simp,
      show 6 * ((pairsChars (p :: tl)).length + 2) + 8
        = (6 * (pairsChars (p :: tl)).length + 18) + 1 + 1 from by omega,
      parseVal, if_pos rfl, parseObjRest_members,
      parseMembers_dumps (p :: tl) _ [] (by simp) (by omega) (by intro r _; rfl) hnd]
    simp [skipWs]

/-- Witness: the round trip evaluated on the cookie set of the specification
example. -/
theorem cookie_roundtrip_witness :
    ((([("dnevnik_sst", "x"), ("session", "y")] : List (String × String)).map
        Prod.fst).Nodup)
    ∧ loads (dumps [("dnevnik_sst", "x"), ("session", "y")])
        = some (.obj [("dnevnik_sst", Json.str "x"), ("session", Json.str "y")]) :=
  ⟨by decide, cookie_roundtrip [("dnevnik_sst", "x"), ("session", "y")] (by decide)⟩
